import Mathlib

/-!
# Verification of the newspaper front-page scraper (`fp_newspapers.py`)

This file gives a shallow embedding of the core logic of the scraper:

* `normalize_text`   — text normalization (`NewspaperBot._normalize_text`),
* `check_date_generic` — date validation (`NewspaperBot._check_date_generic`),
* `frontpagesImagePath` — high-res URL formation (`_search_frontpages`),
* `zouglaResolveCurrent` / `find_zougla_high_res_url` — the Zougla detail-page
  resolution, current version and the two-strategy helper of the old version,
* `sanitizeFilename` — filename sanitization (`_download_file`),
* `runNewspapers`    — the orchestrator loop (`NewspaperBot.run`).

Python strings are modeled as `List Char`.  `None`-able strings are modeled as
`Option (List Char)`, and Python truthiness of a string value by `optTruthy`.
The Unicode data consulted by the Python code (`str.lower`,
`unicodedata.normalize('NFD', ·)`, category `Mn`, `str.isspace`) is embedded by
explicit tables faithful to the Unicode character database on the alphabet the
program actually handles: ASCII, Latin-1 letters, and the Greek and Coptic
block with its combining accents.  Regular-expression searches are embedded by
specialized matchers implementing `re.search` semantics (leftmost starting
position, preference-order alternatives for the `{1,2}` quantifiers) for the
two fixed date patterns.
-/

set_option linter.unusedVariables false

/-- Python strings are modeled as lists of characters. -/
abbrev Str := List Char

/-! ## Character data tables -/

/-- Whitespace characters: the set recognized by Python's `str.strip()`
(`str.isspace`) and by the regex class `\s`, restricted to the modeled
alphabet; within U+0000 - U+00FF both agree on exactly
`{09-0D, 1C-1F, 20, 85, A0}`. -/
def isSpaceChar (c : Char) : Bool :=
  let n := c.toNat
  n == 0x20 || (0x9 ≤ n && n ≤ 0xd) || (0x1c ≤ n && n ≤ 0x1f) ||
  n == 0x85 || n == 0xa0

/-- The context-free lowercase mapping of the Unicode database on the modeled
alphabet: ASCII `A`-`Z`, Latin-1 uppercase letters, Greek capitals `Α`-`Ω`
(all map by adding 0x20), and the scattered accented Greek capitals.
Characters outside the modeled uppercase sets are returned unchanged.  Python
`str.lower` applies this mapping to every character except capital sigma
U+03A3, which lowers contextually (see `pyLowerStr`). -/
def pyLower (c : Char) : Char :=
  let n := c.toNat
  if 0x41 ≤ n && n ≤ 0x5a then Char.ofNat (n + 0x20)
  else if 0xc0 ≤ n && n ≤ 0xde && n != 0xd7 then Char.ofNat (n + 0x20)
  else if 0x391 ≤ n && n ≤ 0x3a9 && n != 0x3a2 then Char.ofNat (n + 0x20)
  else if n == 0x386 then Char.ofNat 0x3ac      -- Ά → ά
  else if n == 0x388 then Char.ofNat 0x3ad      -- Έ → έ
  else if n == 0x389 then Char.ofNat 0x3ae      -- Ή → ή
  else if n == 0x38a then Char.ofNat 0x3af      -- Ί → ί
  else if n == 0x38c then Char.ofNat 0x3cc      -- Ό → ό
  else if n == 0x38e then Char.ofNat 0x3cd      -- Ύ → ύ
  else if n == 0x38f then Char.ofNat 0x3ce      -- Ώ → ώ
  else if n == 0x3aa then Char.ofNat 0x3ca      -- Ϊ → ϊ
  else if n == 0x3ab then Char.ofNat 0x3cb      -- Ϋ → ϋ
  else c

/-- Canonical (NFD) decompositions of the modeled precomposed characters:
accented Greek vowels and the common accented Latin-1 letters.  Each entry is
(precomposed character, full canonical decomposition). -/
def nfdTable : List (Char × Str) :=
  [ (Char.ofNat 0x3ac, [Char.ofNat 0x3b1, Char.ofNat 0x301]),  -- ά
    (Char.ofNat 0x3ad, [Char.ofNat 0x3b5, Char.ofNat 0x301]),  -- έ
    (Char.ofNat 0x3ae, [Char.ofNat 0x3b7, Char.ofNat 0x301]),  -- ή
    (Char.ofNat 0x3af, [Char.ofNat 0x3b9, Char.ofNat 0x301]),  -- ί
    (Char.ofNat 0x3cc, [Char.ofNat 0x3bf, Char.ofNat 0x301]),  -- ό
    (Char.ofNat 0x3cd, [Char.ofNat 0x3c5, Char.ofNat 0x301]),  -- ύ
    (Char.ofNat 0x3ce, [Char.ofNat 0x3c9, Char.ofNat 0x301]),  -- ώ
    (Char.ofNat 0x3ca, [Char.ofNat 0x3b9, Char.ofNat 0x308]),  -- ϊ
    (Char.ofNat 0x3cb, [Char.ofNat 0x3c5, Char.ofNat 0x308]),  -- ϋ
    (Char.ofNat 0x390, [Char.ofNat 0x3b9, Char.ofNat 0x308, Char.ofNat 0x301]),
    (Char.ofNat 0x3b0, [Char.ofNat 0x3c5, Char.ofNat 0x308, Char.ofNat 0x301]),
    (Char.ofNat 0x386, [Char.ofNat 0x391, Char.ofNat 0x301]),  -- Ά
    (Char.ofNat 0x388, [Char.ofNat 0x395, Char.ofNat 0x301]),  -- Έ
    (Char.ofNat 0x389, [Char.ofNat 0x397, Char.ofNat 0x301]),  -- Ή
    (Char.ofNat 0x38a, [Char.ofNat 0x399, Char.ofNat 0x301]),  -- Ί
    (Char.ofNat 0x38c, [Char.ofNat 0x39f, Char.ofNat 0x301]),  -- Ό
    (Char.ofNat 0x38e, [Char.ofNat 0x3a5, Char.ofNat 0x301]),  -- Ύ
    (Char.ofNat 0x38f, [Char.ofNat 0x3a9, Char.ofNat 0x301]),  -- Ώ
    (Char.ofNat 0x3aa, [Char.ofNat 0x399, Char.ofNat 0x308]),  -- Ϊ
    (Char.ofNat 0x3ab, [Char.ofNat 0x3a5, Char.ofNat 0x308]),  -- Ϋ
    (Char.ofNat 0x385, [Char.ofNat 0xa8, Char.ofNat 0x301]),   -- dialytika tonos
    (Char.ofNat 0x387, [Char.ofNat 0xb7]),                     -- ano teleia
    (Char.ofNat 0x340, [Char.ofNat 0x300]),
    (Char.ofNat 0x341, [Char.ofNat 0x301]),
    (Char.ofNat 0x343, [Char.ofNat 0x313]),
    (Char.ofNat 0x344, [Char.ofNat 0x308, Char.ofNat 0x301]),
    (Char.ofNat 0xc0, ['A', Char.ofNat 0x300]),
    (Char.ofNat 0xc1, ['A', Char.ofNat 0x301]),
    (Char.ofNat 0xc2, ['A', Char.ofNat 0x302]),
    (Char.ofNat 0xc3, ['A', Char.ofNat 0x303]),
    (Char.ofNat 0xc4, ['A', Char.ofNat 0x308]),
    (Char.ofNat 0xc5, ['A', Char.ofNat 0x30a]),
    (Char.ofNat 0xc7, ['C', Char.ofNat 0x327]),
    (Char.ofNat 0xc8, ['E', Char.ofNat 0x300]),
    (Char.ofNat 0xc9, ['E', Char.ofNat 0x301]),
    (Char.ofNat 0xca, ['E', Char.ofNat 0x302]),
    (Char.ofNat 0xcb, ['E', Char.ofNat 0x308]),
    (Char.ofNat 0xcc, ['I', Char.ofNat 0x300]),
    (Char.ofNat 0xcd, ['I', Char.ofNat 0x301]),
    (Char.ofNat 0xce, ['I', Char.ofNat 0x302]),
    (Char.ofNat 0xcf, ['I', Char.ofNat 0x308]),
    (Char.ofNat 0xd1, ['N', Char.ofNat 0x303]),
    (Char.ofNat 0xd2, ['O', Char.ofNat 0x300]),
    (Char.ofNat 0xd3, ['O', Char.ofNat 0x301]),
    (Char.ofNat 0xd4, ['O', Char.ofNat 0x302]),
    (Char.ofNat 0xd5, ['O', Char.ofNat 0x303]),
    (Char.ofNat 0xd6, ['O', Char.ofNat 0x308]),
    (Char.ofNat 0xd9, ['U', Char.ofNat 0x300]),
    (Char.ofNat 0xda, ['U', Char.ofNat 0x301]),
    (Char.ofNat 0xdb, ['U', Char.ofNat 0x302]),
    (Char.ofNat 0xdc, ['U', Char.ofNat 0x308]),
    (Char.ofNat 0xdd, ['Y', Char.ofNat 0x301]),
    (Char.ofNat 0xe0, ['a', Char.ofNat 0x300]),
    (Char.ofNat 0xe1, ['a', Char.ofNat 0x301]),
    (Char.ofNat 0xe2, ['a', Char.ofNat 0x302]),
    (Char.ofNat 0xe3, ['a', Char.ofNat 0x303]),
    (Char.ofNat 0xe4, ['a', Char.ofNat 0x308]),
    (Char.ofNat 0xe5, ['a', Char.ofNat 0x30a]),
    (Char.ofNat 0xe7, ['c', Char.ofNat 0x327]),
    (Char.ofNat 0xe8, ['e', Char.ofNat 0x300]),
    (Char.ofNat 0xe9, ['e', Char.ofNat 0x301]),
    (Char.ofNat 0xea, ['e', Char.ofNat 0x302]),
    (Char.ofNat 0xeb, ['e', Char.ofNat 0x308]),
    (Char.ofNat 0xec, ['i', Char.ofNat 0x300]),
    (Char.ofNat 0xed, ['i', Char.ofNat 0x301]),
    (Char.ofNat 0xee, ['i', Char.ofNat 0x302]),
    (Char.ofNat 0xef, ['i', Char.ofNat 0x308]),
    (Char.ofNat 0xf1, ['n', Char.ofNat 0x303]),
    (Char.ofNat 0xf2, ['o', Char.ofNat 0x300]),
    (Char.ofNat 0xf3, ['o', Char.ofNat 0x301]),
    (Char.ofNat 0xf4, ['o', Char.ofNat 0x302]),
    (Char.ofNat 0xf5, ['o', Char.ofNat 0x303]),
    (Char.ofNat 0xf6, ['o', Char.ofNat 0x308]),
    (Char.ofNat 0xf9, ['u', Char.ofNat 0x300]),
    (Char.ofNat 0xfa, ['u', Char.ofNat 0x301]),
    (Char.ofNat 0xfb, ['u', Char.ofNat 0x302]),
    (Char.ofNat 0xfc, ['u', Char.ofNat 0x308]),
    (Char.ofNat 0xfd, ['y', Char.ofNat 0x301]),
    (Char.ofNat 0xff, ['y', Char.ofNat 0x308]) ]

/-- NFD decomposition of a single character: look the character up in the
table of modeled canonical decompositions; characters without a canonical
decomposition decompose to themselves.  On the modeled alphabet, the NFD of a
string is the concatenation of the decompositions of its characters. -/
def nfdChar (c : Char) : Str :=
  match nfdTable.lookup c with
  | some l => l
  | none => [c]

/-- Unicode category `Mn` (nonspacing combining mark) on the modeled alphabet:
the Combining Diacritical Marks block U+0300 - U+036F, which consists entirely
of `Mn` characters and contains every mark produced by `nfdTable`. -/
def isMn (c : Char) : Bool :=
  0x300 ≤ c.toNat && c.toNat ≤ 0x36f

/-- The character class kept by `re.sub(r'[^a-z0-9\sα-ω]', '', text)`:
lowercase ASCII letters, ASCII digits, whitespace, and the codepoint range
`α`-`ω` (U+03B1 - U+03C9). -/
def keepChar (c : Char) : Bool :=
  (0x61 ≤ c.toNat && c.toNat ≤ 0x7a) ||
  (0x30 ≤ c.toNat && c.toNat ≤ 0x39) ||
  isSpaceChar c ||
  (0x3b1 ≤ c.toNat && c.toNat ≤ 0x3c9)

/-- The Unicode `Cased` property on the modeled alphabet: ASCII letters, the
Latin-1 letters (including `µ`, `ª`, `º`), and the Greek letters (including
both sigma forms). -/
def isCased (c : Char) : Bool :=
  let n := c.toNat
  (0x41 ≤ n && n ≤ 0x5a) || (0x61 ≤ n && n ≤ 0x7a) ||
  n == 0xaa || n == 0xb5 || n == 0xba ||
  (0xc0 ≤ n && n ≤ 0xff && n != 0xd7 && n != 0xf7) ||
  n == 0x386 || (0x388 ≤ n && n ≤ 0x38a) || n == 0x38c ||
  (0x38e ≤ n && n ≤ 0x3ce && n != 0x3a2)

/-- The Unicode `Case_Ignorable` property on the modeled alphabet: the
combining marks plus the mid-letter punctuation and modifier-symbol
characters `' . : ^ \x60 ¨ ­ ¯ ´ · ¸ ΄ ΅ ·`. -/
def isCaseIgnorable (c : Char) : Bool :=
  let n := c.toNat
  n == 0x27 || n == 0x2e || n == 0x3a || n == 0x5e || n == 0x60 ||
  n == 0xa8 || n == 0xad || n == 0xaf || n == 0xb4 || n == 0xb7 || n == 0xb8 ||
  (0x300 ≤ n && n ≤ 0x36f) || n == 0x384 || n == 0x385 || n == 0x387

/-- The Final_Sigma condition of `str.lower` (CPython's
`handle_capital_sigma`): the nearest non-case-ignorable character before the
capital sigma exists and is cased, and the nearest non-case-ignorable
character after it is absent or not cased.  `revPre` is the reversed prefix
preceding the sigma, `suf` the suffix following it (both from the original
string). -/
def finalSigma (revPre suf : Str) : Bool :=
  (match revPre.dropWhile isCaseIgnorable with
   | [] => false
   | c :: _ => isCased c) &&
  (match suf.dropWhile isCaseIgnorable with
   | [] => true
   | c :: _ => !isCased c)

/-- Worker for `pyLowerStr`: `revPre` accumulates the reversed prefix of
already-seen characters, providing the backward context for Final_Sigma. -/
def pyLowerGo (revPre : Str) : Str → Str
  | [] => []
  | c :: rest =>
    (if c == Char.ofNat 0x3a3 then
      (if finalSigma revPre rest then Char.ofNat 0x3c2 else Char.ofNat 0x3c3)
    else pyLower c) :: pyLowerGo (c :: revPre) rest

/-- Python `str.lower` on the modeled alphabet: the context-free mapping
`pyLower` on every character except capital sigma U+03A3, which lowers to the
final form `ς` when the Final_Sigma condition holds and to `σ` otherwise. -/
def pyLowerStr (s : Str) : Str := pyLowerGo [] s

/-! ## Python string primitives -/

/-- Python `str.lstrip()` (whitespace variant) on the modeled alphabet. -/
def pylstrip (s : Str) : Str := s.dropWhile isSpaceChar

/-- Python `str.rstrip()` (whitespace variant) on the modeled alphabet. -/
def pyrstrip (s : Str) : Str := (s.reverse.dropWhile isSpaceChar).reverse

/-- Python `str.strip()` (whitespace variant) on the modeled alphabet. -/
def pystrip (s : Str) : Str := pyrstrip (pylstrip s)

/-- Python truthiness of an optional string: `None` and the empty string are
falsy, every other string is truthy. -/
def optTruthy : Option Str → Bool
  | none => false
  | some s => !s.isEmpty

/-! ## `_normalize_text` (src/fp_newspapers.py lines 83-97)

```
def _normalize_text(self, text):
    try:
        if not text: return ""
        text = text.lower().strip()
        text = ''.join(c for c in unicodedata.normalize('NFD', text)
                    if unicodedata.category(c) != 'Mn')
        text = re.sub(r'\x5b^a-z0-9\sα-ω\x5d', '', text)
        return text.strip()
    except Exception as e:
        print(...)
        return ""
```

The embedding is total, so the `except` branch (which returns `""`) has no
counterpart: no step of the pure model can fail. -/

def normalize_text (text : Str) : Str :=
  if text.isEmpty then []
  else
    let lowered := pystrip (pyLowerStr text)
    let deaccented := (lowered.flatMap nfdChar).filter (fun c => !isMn c)
    let cleaned := deaccented.filter keepChar
    pystrip cleaned

/-! ## Date model -/

/-- A calendar date, as produced by `datetime.date`. -/
structure Date where
  year : Nat
  month : Nat
  day : Nat
deriving DecidableEq, Repr

instance : BEq Date := ⟨fun a b => decide (a = b)⟩

/-- Gregorian leap-year rule used by `datetime`. -/
def isLeap (y : Nat) : Bool := y % 4 == 0 && (y % 100 != 0 || y % 400 == 0)

/-- Number of days in a month, as used by `datetime`'s validity check. -/
def daysInMonth (y m : Nat) : Nat :=
  if m == 2 then (if isLeap y then 29 else 28)
  else if m == 4 || m == 6 || m == 9 || m == 11 then 30
  else 31

/-- `datetime(year, month, day).date()`: `some` of the date when the
components are valid, `none` when the constructor raises `ValueError`
(month or day out of range, or year outside `MINYEAR..MAXYEAR`). -/
def mkDate (y m d : Nat) : Option Date :=
  if 1 ≤ y && y ≤ 9999 && 1 ≤ m && m ≤ 12 && 1 ≤ d && d ≤ daysInMonth y m then
    some ⟨y, m, d⟩
  else none

/-! ## Regex search embedding

The two patterns searched by `_check_date_generic` are
`(\d{1,2})\s*/\s*(\d{1,2})` and `(\d{1,2})\s*/\s*(\d{1,2})\s*/\s*(\d{4})`.
`re.search` scans starting positions left to right; at each position a greedy
`\d{1,2}` group first tries two digits, then one.  Since `\s` and `/` are
disjoint, the `\s*` pieces match deterministically. -/

/-- Numeric value of an ASCII digit, as used by `int()` on a digit string. -/
def dv (c : Char) : Nat := c.toNat - 0x30

/-- The alternatives for a greedy `(\d{1,2})` group at the current position,
in the order the regex engine tries them (two digits first), each paired with
the remaining input. -/
def twoDigitAlt : Str → List (Nat × Str)
  | [] => []
  | [a] => if a.isDigit then [(dv a, [])] else []
  | a :: b :: rest =>
    if a.isDigit && b.isDigit then
      [(dv a * 10 + dv b, rest), (dv a, b :: rest)]
    else if a.isDigit then [(dv a, b :: rest)]
    else []

/-- Match `\s*/\s*`: skip whitespace, require a slash, skip whitespace. -/
def slashSep (s : Str) : Option Str :=
  match s.dropWhile isSpaceChar with
  | '/' :: rest => some (rest.dropWhile isSpaceChar)
  | _ => none

/-- Match `(\d{4})` exactly: four ASCII digits. -/
def fourDigits (s : Str) : Option (Nat × Str) :=
  match s with
  | a :: b :: c :: d :: rest =>
    if a.isDigit && b.isDigit && c.isDigit && d.isDigit then
      some (((dv a * 10 + dv b) * 10 + dv c) * 10 + dv d, rest)
    else none
  | _ => none

/-- Try the short pattern `(\d{1,2})\s*/\s*(\d{1,2})` anchored at the current
position, returning `(day, month)` on success. -/
def matchShortAt (s : Str) : Option (Nat × Nat) :=
  (twoDigitAlt s).findSome? fun dr =>
    match slashSep dr.2 with
    | some r2 =>
      match twoDigitAlt r2 with
      | (m, _) :: _ => some (dr.1, m)
      | [] => none
    | none => none

/-- `re.search` of the short pattern: leftmost starting position wins. -/
def searchShort : Str → Option (Nat × Nat)
  | [] => none
  | c :: rest =>
    match matchShortAt (c :: rest) with
    | some x => some x
    | none => searchShort rest

/-- Try the long pattern `(\d{1,2})\s*/\s*(\d{1,2})\s*/\s*(\d{4})` anchored at
the current position, returning `(day, month, year)` on success. -/
def matchLongAt (s : Str) : Option (Nat × Nat × Nat) :=
  (twoDigitAlt s).findSome? fun dr =>
    match slashSep dr.2 with
    | some r2 =>
      (twoDigitAlt r2).findSome? fun mr =>
        match slashSep mr.2 with
        | some r4 =>
          match fourDigits r4 with
          | some (y, _) => some (dr.1, mr.1, y)
          | none => none
        | none => none
    | none => none

/-- `re.search` of the long pattern: leftmost starting position wins. -/
def searchLong : Str → Option (Nat × Nat × Nat)
  | [] => none
  | c :: rest =>
    match matchLongAt (c :: rest) with
    | some x => some x
    | none => searchLong rest

/-! ## `_check_date_generic` (src/fp_newspapers.py lines 99-133) -/

/-- The year assumed for a yearless `D/M` date (lines 113-115): the current
year, except the previous year when the parsed month is December and the
current month is January. -/
def assumedYear (now : Date) (month : Nat) : Nat :=
  if month == 12 && now.month == 1 then now.year - 1 else now.year

/-- Embedding of `_check_date_generic`.  `date_text` is `none` for Python
`None`; `now` stands for `datetime.now().date()`.  The surrounding
`try/except` returns `True` on any exception; the only fallible operation in
the body is the `datetime` constructor, modeled by `mkDate` returning `none`,
in which case the result is `true`.  The model is total, so no other
exceptional path exists. -/
def check_date_generic (now : Date) (date_text : Option Str) : Bool :=
  match date_text with
  | none => true
  | some t =>
    if t.isEmpty then true
    else
      let clean := pystrip t
      match searchShort clean with
      | some (d, m) =>
        match mkDate (assumedYear now m) m d with
        | some paper_date => paper_date == now
        | none => true
      | none =>
        match searchLong clean with
        | some (d, m, y) =>
          match mkDate y m d with
          | some paper_date => paper_date == now
          | none => true
        | none => true

/-! ## Python `str.replace` and the Frontpages high-res path
(src/fp_newspapers.py lines 186-193)

```
if found_small_img_src and found_small_img_src.endswith('300.jpg'):
    image_path = found_small_img_src.replace('300.jpg', 'I.jpg')
    full_img_url = urljoin(self.url_frontpages, image_path)
    return self._download_file(page, full_img_url, f"{target_name}_fp.jpg")
return None
```
-/

/-- Python `str.replace(pat, rep)` for a nonempty pattern: replace every
non-overlapping occurrence, scanning left to right.  The extra fuel argument
(instantiated with the length of the string, which bounds the number of steps)
makes the recursion structural, so the function evaluates by `decide`. -/
def pyReplaceFuel (pat rep : Str) : Nat → Str → Str
  | _, [] => []
  | 0, c :: rest => c :: rest
  | fuel + 1, c :: rest =>
    if !pat.isEmpty && pat.isPrefixOf (c :: rest) then
      rep ++ pyReplaceFuel pat rep fuel ((c :: rest).drop pat.length)
    else
      c :: pyReplaceFuel pat rep fuel rest

/-- Python `str.replace(pat, rep)` for a nonempty pattern. -/
def pyReplace (pat rep s : Str) : Str := pyReplaceFuel pat rep s.length s

/-- The fixed low-resolution suffix token `'300.jpg'`. -/
def lowResToken : Str := "300.jpg".toList

/-- The high-resolution token `'I.jpg'`. -/
def highResToken : Str := "I.jpg".toList

/-- The image-path formation of `_search_frontpages` (lines 186-193), as a
function of the discovered preview reference `found_small_img_src` (which is
`None` when no matching entry with an image was found, and otherwise the
`src` attribute value).  The result is the `image_path` handed to `urljoin`,
or `none` when the function returns `None` and the site is skipped. -/
def frontpagesImagePath (found_small_img_src : Option Str) : Option Str :=
  match found_small_img_src with
  | some s =>
    if !s.isEmpty && lowResToken.isSuffixOf s then
      some (pyReplace lowResToken highResToken s)
    else none
  | none => none

/-! ## Zougla detail-page resolution

Current version, src/fp_newspapers.py lines 225-234:

```
img_src = None
if page.locator(".newspaper-cover img").count():
    img_src = page.locator(".newspaper-cover img").first.get_attribute("src")
if img_src:
    full_img_url = urljoin(self.url_zougla, img_src)
    return self._download_file(page, full_img_url, f"{target_name}_zg.jpg")
return None
```

Old version, src/old versions/fp_newspapers.py lines 221-254
(`_find_zougla_high_res_url`): strategy A reads the first image of the
`.newspaper-cover` container (a timeout of `wait_for_selector` is caught and
leaves `img_src` unset); if `img_src` is falsy, strategy B scans every image
on the page and accepts the first whose `src` is truthy, normalizes to the
target name, and whose lowercased `src` contains none of
`['-sm.', '300x', '150x']`. -/

/-- A Zougla detail page, reduced to the queries the code performs: the
`src` attributes of the images inside the `.newspaper-cover` container and of
all images on the page, in DOM order (`none` models a missing attribute). -/
structure ZouglaDetailPage where
  coverImgs : List (Option Str)
  allImgs : List (Option Str)

/-- The `src` of the first image in the cover container, when the container
holds at least one image (shared by both versions, strategy A). -/
def zouglaCoverSrc (pg : ZouglaDetailPage) : Option Str :=
  match pg.coverImgs.head? with
  | some osrc => osrc
  | none => none

/-- Resolution of the current `_search_zougla` (lines 225-234): the download
is attempted exactly when the cover-container `src` is truthy, with that
`src`; otherwise the function returns `None`. -/
def zouglaResolveCurrent (pg : ZouglaDetailPage) : Option Str :=
  let img_src := zouglaCoverSrc pg
  if optTruthy img_src then img_src else none

/-- Python `'pat' in s`: substring containment. -/
def containsSub (pat : Str) : Str → Bool
  | [] => pat.isPrefixOf []
  | c :: rest => pat.isPrefixOf (c :: rest) || containsSub pat rest

/-- The low-resolution marker tokens of the old version's strategy B. -/
def lowResMarkers : List Str := ["-sm.".toList, "300x".toList, "150x".toList]

/-- Strategy B of the old version (lines 237-252): scan every image, skip
falsy `src` values, and accept the first whose normalized `src` equals the
target name and whose lowercased `src` contains no low-resolution marker. -/
def zouglaScanImgs (target : Str) (imgs : List (Option Str)) : Option Str :=
  imgs.findSome? fun osrc =>
    match osrc with
    | none => none
    | some src =>
      if src.isEmpty then none
      else if normalize_text src == target &&
              !(lowResMarkers.any fun m => containsSub m (src.map pyLower)) then
        some src
      else none

/-- Embedding of the old version's `_find_zougla_high_res_url` (lines
221-254): `img_src` is the strategy-A value; when it is falsy, strategy B may
overwrite it; the final `img_src` is returned (possibly still the falsy
strategy-A value when strategy B finds nothing). -/
def find_zougla_high_res_url (pg : ZouglaDetailPage) (target : Str) : Option Str :=
  let a := zouglaCoverSrc pg
  if optTruthy a then a
  else
    match zouglaScanImgs target pg.allImgs with
    | some s => some s
    | none => a

/-! ## `_download_file` filename sanitization (src/fp_newspapers.py line 143)

`clean_name = re.sub(r'[^\w\-_\.]', '', filename)` keeps exactly the word
characters (`\w`: letters, digits, underscore) together with hyphen and
period. -/

/-- The regex class `\w` (Unicode word character) restricted to the modeled
alphabet: ASCII letters and digits, underscore, Latin-1 letters, and Greek
letters (the letters of the Greek and Coptic block, excluding the punctuation
codepoint U+0387 and the unassigned codepoints U+038B, U+038D, U+03A2). -/
def isWordChar (c : Char) : Bool :=
  let n := c.toNat
  (0x41 ≤ n && n ≤ 0x5a) || (0x61 ≤ n && n ≤ 0x7a) ||
  (0x30 ≤ n && n ≤ 0x39) || n == 0x5f ||
  (0xc0 ≤ n && n ≤ 0xff && n != 0xd7 && n != 0xf7) ||
  (0x386 ≤ n && n ≤ 0x3ce && n != 0x387 && n != 0x38b && n != 0x38d && n != 0x3a2)

/-- The characters kept by `re.sub(r'[^\w\-_\.]', '', filename)`. -/
def allowedFilenameChar (c : Char) : Bool :=
  isWordChar c || c == '-' || c == '_' || c == '.'

/-- The sanitized filename `clean_name` written by `_download_file`; the
saved path is `os.path.join(self.today_dir, clean_name)`, whose final
component is `clean_name` itself. -/
def sanitizeFilename (filename : Str) : Str :=
  filename.filter allowedFilenameChar

/-! ## The orchestrator loop (src/fp_newspapers.py lines 301-315)

```
for name in NEWSPAPER_LIST:
    norm_name = self._normalize_text(name)
    result = self._search_frontpages(page, norm_name)
    if not result:
        result = self._search_zougla(page, norm_name)
    if result:
        self.downloaded_images.append(result)
    else:
        print(f"❌ Not found: {name}")
```

The two site adapters are modeled as oracle functions from the normalized
target name to the optional path they return (`None` on any failure).  The
run is instrumented: besides the accumulated `downloaded_images`, it records,
for each processed name in order, whether `_search_zougla` was invoked. -/

/-- The orchestrator loop over the target list.  Returns the
`downloaded_images` list and, for each target in order, a flag recording
whether the Zougla adapter was invoked for it. -/
def runNewspapers (fp zg : Str → Option Str) : List Str → List Str × List (Str × Bool)
  | [] => ([], [])
  | n :: rest =>
    let norm := normalize_text n
    let r1 := fp norm
    let result := if optTruthy r1 then r1 else zg norm
    let prev := runNewspapers fp zg rest
    ((match result with
      | some p => if p.isEmpty then prev.1 else p :: prev.1
      | none => prev.1),
     (n, !optTruthy r1) :: prev.2)

/-- The per-target outcome of one iteration of the loop: the path appended to
`downloaded_images` for this target, if any. -/
def acceptedPath (fp zg : Str → Option Str) (n : Str) : Option Str :=
  let norm := normalize_text n
  let r1 := fp norm
  let result := if optTruthy r1 then r1 else zg norm
  if optTruthy result then result else none

/-! ## Normalization: character cores and the difference relation (claim C6) -/

/-- The base of a character: lowercase it, decompose it, and drop the
combining marks.  Two characters that differ only by letter case or by accent
marks have equal bases. -/
def baseOf (c : Char) : Str :=
  (nfdChar (pyLower c)).filter (fun d => !isMn d)

/-- The contribution of a single input character to the normalized text
before the final strip: its base, restricted to the characters kept by the
punctuation rule. -/
def charCore (c : Char) : Str :=
  (baseOf c).filter keepChar

/-- Two strings differ only by letter case, accent marks, or characters
removed by the punctuation rule: they can be aligned so that aligned
characters have equal bases (covering equal characters, case variants and
accent variants), while unaligned characters contribute nothing to the
normalized text (their core, the base restricted to kept characters, is
empty — exactly the characters the rule strips). -/
inductive DiffersOnly : Str → Str → Prop
  | nil : DiffersOnly [] []
  | base {c d : Char} {xs ys : Str} :
      baseOf c = baseOf d → DiffersOnly xs ys → DiffersOnly (c :: xs) (d :: ys)
  | dropL {c : Char} {xs ys : Str} :
      charCore c = [] → DiffersOnly xs ys → DiffersOnly (c :: xs) ys
  | dropR {d : Char} {xs ys : Str} :
      charCore d = [] → DiffersOnly xs ys → DiffersOnly xs (d :: ys)

/-! ## Lemmas: whitespace stripping and the normalization core -/

/-- The core of the normalization pipeline between the two strips: NFD,
removal of combining marks, and the punctuation rule. -/
def normCore (s : Str) : Str :=
  ((s.flatMap nfdChar).filter (fun c => !isMn c)).filter keepChar

theorem mem_takeWhile_space {p : Char → Bool} :
    ∀ {l : Str} {a : Char}, a ∈ l.takeWhile p → p a = true := by
  intro l
  induction l with
  | nil => intro a h; simp [List.takeWhile] at h
  | cons c rest ih =>
    intro a h
    rw [List.takeWhile_cons] at h
    by_cases hc : p c
    · simp only [hc, if_pos] at h
      rcases List.mem_cons.mp h with rfl | h
      · exact hc
      · exact ih h
    · simp [hc] at h

theorem dropWhile_append_space (a s : Str) (h : ∀ c ∈ a, isSpaceChar c = true) :
    (a ++ s).dropWhile isSpaceChar = s.dropWhile isSpaceChar := by
  induction a with
  | nil => rfl
  | cons c a' ih =>
    have hc : isSpaceChar c = true := h c (List.mem_cons_self c a')
    rw [List.cons_append, List.dropWhile_cons, if_pos hc]
    exact ih fun x hx => h x (List.mem_cons_of_mem c hx)

theorem dropWhile_space_eq_nil (l : Str) (h : ∀ c ∈ l, isSpaceChar c = true) :
    l.dropWhile isSpaceChar = [] := by
  induction l with
  | nil => rfl
  | cons c l' ih =>
    rw [List.dropWhile_cons, if_pos (h c (List.mem_cons_self c l'))]
    exact ih fun x hx => h x (List.mem_cons_of_mem c hx)

theorem pylstrip_append_space (a s : Str) (h : ∀ c ∈ a, isSpaceChar c = true) :
    pylstrip (a ++ s) = pylstrip s :=
  dropWhile_append_space a s h

theorem pyrstrip_append_space (v b : Str) (h : ∀ c ∈ b, isSpaceChar c = true) :
    pyrstrip (v ++ b) = pyrstrip v := by
  unfold pyrstrip
  rw [List.reverse_append,
    dropWhile_append_space b.reverse v.reverse fun c hc => h c (List.mem_reverse.mp hc)]

theorem pyrstrip_pylstrip_append_space (v b : Str) (h : ∀ c ∈ b, isSpaceChar c = true) :
    pyrstrip (pylstrip (v ++ b)) = pyrstrip (pylstrip v) := by
  induction v with
  | nil =>
    show pyrstrip (pylstrip b) = pyrstrip (pylstrip [])
    unfold pylstrip
    rw [dropWhile_space_eq_nil b h]
    rfl
  | cons c v' ih =>
    show pyrstrip (pylstrip (c :: (v' ++ b))) = _
    unfold pylstrip
    rw [List.dropWhile_cons, List.dropWhile_cons]
    by_cases hc : isSpaceChar c
    · rw [if_pos hc, if_pos hc]
      exact ih
    · rw [if_neg hc, if_neg hc, ← List.cons_append]
      exact pyrstrip_append_space (c :: v') b h

theorem pystrip_wrap (a v b : Str) (ha : ∀ c ∈ a, isSpaceChar c = true)
    (hb : ∀ c ∈ b, isSpaceChar c = true) :
    pystrip (a ++ v ++ b) = pystrip v := by
  unfold pystrip
  rw [List.append_assoc, pylstrip_append_space a (v ++ b) ha]
  exact pyrstrip_pylstrip_append_space v b hb

theorem exists_strip_decomp (s : Str) :
    ∃ a b, s = a ++ pystrip s ++ b ∧
      (∀ c ∈ a, isSpaceChar c = true) ∧ (∀ c ∈ b, isSpaceChar c = true) := by
  refine ⟨s.takeWhile isSpaceChar, ((pylstrip s).reverse.takeWhile isSpaceChar).reverse,
    ?_, fun c hc => mem_takeWhile_space hc,
    fun c hc => mem_takeWhile_space (List.mem_reverse.mp hc)⟩
  have h1 : s = s.takeWhile isSpaceChar ++ pylstrip s :=
    (List.takeWhile_append_dropWhile isSpaceChar s).symm
  have h2 : pylstrip s = pystrip s ++ ((pylstrip s).reverse.takeWhile isSpaceChar).reverse :=
    calc pylstrip s = ((pylstrip s).reverse).reverse := (List.reverse_reverse _).symm
      _ = (List.takeWhile isSpaceChar (pylstrip s).reverse ++
            List.dropWhile isSpaceChar (pylstrip s).reverse).reverse := by
          rw [List.takeWhile_append_dropWhile]
      _ = pystrip s ++ (List.takeWhile isSpaceChar (pylstrip s).reverse).reverse := by
          rw [List.reverse_append]; rfl
  rw [List.append_assoc, ← h2, ← h1]

theorem normCore_append (x y : Str) : normCore (x ++ y) = normCore x ++ normCore y := by
  simp [normCore, List.flatMap_append, List.filter_append]

theorem lookup_eq_none_of_ne {β : Type} (c : Char) :
    ∀ l : List (Char × β), (∀ p ∈ l, c ≠ p.1) → l.lookup c = none := by
  intro l
  induction l with
  | nil => intro _; rfl
  | cons p rest ih =>
    intro h
    obtain ⟨k, v⟩ := p
    have hne : (c == k) = false :=
      beq_eq_false_iff_ne.mpr (h (k, v) (List.mem_cons_self _ rest))
    simp only [List.lookup, hne]
    exact ih fun q hq => h q (List.mem_cons_of_mem _ hq)

/-- Every key of the decomposition table is at least U+00C0, so characters
below that codepoint decompose to themselves. -/
theorem nfdChar_eq_self_of_lt (c : Char) (h : c.toNat < 0xc0) :
    nfdChar c = [c] := by
  have hkeys : ∀ p ∈ nfdTable, 0xc0 ≤ p.1.toNat := by decide
  unfold nfdChar
  rw [lookup_eq_none_of_ne c nfdTable fun p hp heq => by
    rw [heq] at h
    exact absurd (hkeys p hp) (Nat.not_le.mpr h)]

theorem isSpaceChar_lt (c : Char) (h : isSpaceChar c = true) : c.toNat < 0xc0 := by
  simp only [isSpaceChar, Bool.or_eq_true, Bool.and_eq_true, beq_iff_eq,
    decide_eq_true_eq] at h
  omega

theorem space_char_core (c : Char) (h : isSpaceChar c = true) :
    nfdChar c = [c] ∧ isMn c = false ∧ keepChar c = true := by
  have hn : c.toNat < 0xc0 := isSpaceChar_lt c h
  refine ⟨nfdChar_eq_self_of_lt c hn, ?_, ?_⟩
  · have hnot : ¬ 0x300 ≤ c.toNat := by omega
    simp [isMn, hnot]
  · simp [keepChar, h]

theorem normCore_spaces (a : Str) (h : ∀ c ∈ a, isSpaceChar c = true) :
    normCore a = a := by
  induction a with
  | nil => rfl
  | cons c a' ih =>
    obtain ⟨h1, h2, h3⟩ := space_char_core c (h c (List.mem_cons_self c a'))
    simp only [normCore, List.flatMap_cons, List.filter_append, h1]
    rw [show List.filter (fun c => !isMn c) [c] = [c] by simp [List.filter, h2],
      show List.filter keepChar [c] = [c] by simp [List.filter, h3]]
    have := ih fun x hx => h x (List.mem_cons_of_mem c hx)
    simp only [normCore] at this
    rw [this]
    rfl

theorem normCore_map_pyLower (x : Str) :
    normCore (x.map pyLower) = x.flatMap charCore := by
  simp only [normCore, List.flatMap_map, List.filter_flatMap]
  rfl

/-- On strings free of capital sigma, the Final_Sigma context never applies
and `str.lower` is the character-wise map `pyLower`. -/
theorem pyLowerGo_eq_map :
    ∀ s : Str, (∀ c ∈ s, c ≠ Char.ofNat 0x3a3) →
    ∀ revPre : Str, pyLowerGo revPre s = s.map pyLower := by
  intro s
  induction s with
  | nil => intro _ _; rfl
  | cons c rest ih =>
    intro hs revPre
    have hc : (c == Char.ofNat 0x3a3) = false :=
      beq_eq_false_iff_ne.mpr (hs c (List.mem_cons_self c rest))
    simp only [pyLowerGo, hc, Bool.false_eq_true, if_false, List.map_cons]
    rw [ih (fun x hx => hs x (List.mem_cons_of_mem c hx)) (c :: revPre)]

theorem pyLowerStr_eq_map (s : Str) (hs : ∀ c ∈ s, c ≠ Char.ofNat 0x3a3) :
    pyLowerStr s = s.map pyLower :=
  pyLowerGo_eq_map s hs []

/-- On strings free of capital sigma, the normalization pipeline factors
through the per-character cores: lowering is character-wise and the inner
strip is absorbed by the final strip. -/
theorem normalize_eq_core (x : Str) (hx3 : ∀ c ∈ x, c ≠ Char.ofNat 0x3a3) :
    normalize_text x = pystrip (x.flatMap charCore) := by
  by_cases hx : x.isEmpty
  · have : x = [] := by
      cases x
      · rfl
      · simp [List.isEmpty] at hx
    subst this
    rfl
  · show (if x.isEmpty then [] else _) = _
    rw [if_neg hx]
    show pystrip (normCore (pystrip (pyLowerStr x))) = _
    rw [pyLowerStr_eq_map x hx3]
    obtain ⟨a, b, hdecomp, ha, hb⟩ := exists_strip_decomp (x.map pyLower)
    rw [← pystrip_wrap a (normCore (pystrip (x.map pyLower))) b ha hb,
      ← normCore_spaces a ha, ← normCore_spaces b hb,
      ← normCore_append, ← normCore_append, ← hdecomp, normCore_map_pyLower]

theorem flatMap_charCore_eq {x y : Str} (h : DiffersOnly x y) :
    x.flatMap charCore = y.flatMap charCore := by
  induction h with
  | nil => rfl
  | @base c d xs ys hbd hrec ih =>
    have hcd : charCore c = charCore d := by unfold charCore; rw [hbd]
    rw [List.flatMap_cons, List.flatMap_cons, ih, hcd]
  | dropL hc _ ih => rw [List.flatMap_cons, hc, ih]; rfl
  | dropR hd _ ih => rw [List.flatMap_cons, hd, ← ih]; rfl

/-- Claim C6 counterexample: `"ΟΣ"` and `"οσ"` differ only by letter case
(character-wise, each aligned pair has the same context-free lowercase
mapping), yet `str.lower`'s Final_Sigma rule lowercases the word-final
capital sigma to `ς`, so the normalized forms differ: the case invariance is
false of the program on capital sigma. -/
theorem c6_counterexample :
    List.map pyLower ("ΟΣ".toList) = List.map pyLower ("οσ".toList) ∧
    normalize_text ("ΟΣ".toList) = "ος".toList ∧
    normalize_text ("οσ".toList) = "οσ".toList ∧
    normalize_text ("ΟΣ".toList) ≠ normalize_text ("οσ".toList) :=
  ⟨by decide, by decide, by decide, by decide⟩

/-- Claim C6 (amended): for strings free of capital sigma U+03A3 (the one
character whose lowercasing is context-sensitive, breaking the invariance —
see `c6_counterexample`), `_normalize_text` is invariant under changes of
letter case, accent (combining diacritical) marks, and insertion or removal
of characters stripped by the punctuation rule (characters whose core is
empty: everything but lowercase Latin letters, Greek letters, digits and
whitespace); the spec's Greek and Latin examples normalize equal. -/
theorem c6_normalize_invariance :
    (∀ x y : Str,
        (∀ c ∈ x, c ≠ Char.ofNat 0x3a3) →
        (∀ c ∈ y, c ≠ Char.ofNat 0x3a3) →
        DiffersOnly x y → normalize_text x = normalize_text y) ∧
    normalize_text ("Καθημερινή".toList) = normalize_text ("καθημερινη".toList) ∧
    normalize_text ("Le Monde!".toList) = normalize_text ("le monde".toList) := by
  refine ⟨fun x y hx hy h => ?_, by decide, by decide⟩
  rw [normalize_eq_core x hx, normalize_eq_core y hy, flatMap_charCore_eq h]

/-- Witness for `c6_normalize_invariance`: the universally quantified part
applied to a concrete sigma-free pair related by case change and punctuation
removal. -/
theorem c6_normalize_invariance_witness :
    normalize_text ['A', 'b', 'c', '!'] = normalize_text ['a', 'b', 'c'] :=
  c6_normalize_invariance.1 _ _ (by decide) (by decide)
    (DiffersOnly.base (by decide)
      (DiffersOnly.base (by decide)
        (DiffersOnly.base (by decide)
          (DiffersOnly.dropL (by decide) DiffersOnly.nil))))

/-! ## Lemmas: date validation -/

instance : LawfulBEq Date where
  eq_of_beq h := of_decide_eq_true h
  rfl := by intro a; exact decide_eq_true rfl

/-- When the short `D/M` pattern matches, `check_date_generic` is decided by
the date constructed from the first match with the assumed year. -/
theorem check_of_searchShort {now : Date} {t : Str} {d m : Nat}
    (h : searchShort (pystrip t) = some (d, m)) :
    check_date_generic now (some t) =
      match mkDate (assumedYear now m) m d with
      | some paper_date => paper_date == now
      | none => true := by
  by_cases ht : t.isEmpty
  · exfalso
    have : t = [] := by
      cases t
      · rfl
      · simp [List.isEmpty] at ht
    subst this
    exact Option.noConfusion h
  · show (if t.isEmpty then true else _) = _
    rw [if_neg ht, h]

/-- When neither pattern matches, `check_date_generic` passes. -/
theorem check_true_of_no_match {now : Date} {t : Str}
    (h1 : searchShort (pystrip t) = none) (h2 : searchLong (pystrip t) = none) :
    check_date_generic now (some t) = true := by
  by_cases ht : t.isEmpty
  · show (if t.isEmpty then true else _) = true
    rw [if_pos ht]
  · show (if t.isEmpty then true else _) = true
    rw [if_neg ht, h1, h2]

/-- An anchored match of the long pattern yields an anchored match of the
short pattern: the long pattern extends the short one. -/
theorem matchShortAt_of_matchLongAt {s : Str} (h : matchLongAt s ≠ none) :
    matchShortAt s ≠ none := by
  unfold matchLongAt at h
  unfold matchShortAt
  rw [Ne, List.findSome?_eq_none_iff] at h ⊢
  intro hall
  apply h
  intro dr hdr
  have h1 := hall dr hdr
  cases hs : slashSep dr.2 with
  | none => rfl
  | some r2 =>
    rw [hs] at h1
    have h2 : (match twoDigitAlt r2 with
        | (m, _) :: _ => some (dr.1, m)
        | [] => (none : Option (Nat × Nat))) = none := h1
    cases ht : twoDigitAlt r2 with
    | nil =>
      show List.findSome? _ (twoDigitAlt r2) = none
      rw [ht, List.findSome?_nil]
    | cons p tail =>
      obtain ⟨m, rest⟩ := p
      rw [ht] at h2
      exact absurd h2 (by simp)

/-- Search of the long pattern succeeding implies search of the short pattern
succeeding: the `D/M/YYYY` branch of `_check_date_generic` is unreachable. -/
theorem searchShort_of_searchLong : ∀ s : Str, searchLong s ≠ none → searchShort s ≠ none := by
  intro s
  induction s with
  | nil => intro h; exact absurd rfl h
  | cons c rest ih =>
    intro h
    unfold searchLong at h
    unfold searchShort
    cases hl : matchLongAt (c :: rest) with
    | some x =>
      have hshort := matchShortAt_of_matchLongAt (s := c :: rest) (by rw [hl]; simp)
      cases hs : matchShortAt (c :: rest) with
      | some y => simp
      | none => exact absurd hs hshort
    | none =>
      rw [hl] at h
      have := ih h
      cases hs : matchShortAt (c :: rest) with
      | some y => simp
      | none => exact this

/-- Claim C1 counterexample: for input `"15/6/2023"` (a `D/M/YYYY` shape
denoting 2023-06-15) with current date 2024-06-15, `_check_date_generic`
returns true although the denoted date is not today — the year written in the
input is not the year compared against today. -/
theorem c1_counterexample :
    check_date_generic ⟨2024, 6, 15⟩ (some ("15/6/2023".toList)) = true ∧
    searchLong (pystrip ("15/6/2023".toList)) = some (15, 6, 2023) ∧
    mkDate 2023 6 15 = some ⟨2023, 6, 15⟩ ∧
    (⟨2023, 6, 15⟩ : Date) ≠ ⟨2024, 6, 15⟩ :=
  ⟨by decide, by decide, by decide, by decide⟩

/-- Claim C1 (amended): the `D/M` pattern is searched first and matches inside
every input that the `D/M/YYYY` pattern matches, so the long branch is
unreachable and the year written in a `D/M/YYYY` input is ignored; whenever
the `D/M` search succeeds with day `d` and month `m`, `_check_date_generic`
returns true iff the date built from `d`, `m` and the assumed year (current
year, or previous year for December in January) fails to construct or equals
the current process-local date. -/
theorem c1_amended_year_ignored :
    (∀ s : Str, searchLong s ≠ none → searchShort s ≠ none) ∧
    (∀ (now : Date) (t : Str) (d m : Nat),
      searchShort (pystrip t) = some (d, m) →
      (check_date_generic now (some t) = true ↔
        mkDate (assumedYear now m) m d = none ∨
        mkDate (assumedYear now m) m d = some now)) := by
  refine ⟨searchShort_of_searchLong, fun now t d m h => ?_⟩
  rw [check_of_searchShort h]
  cases hd : mkDate (assumedYear now m) m d with
  | none => simp
  | some pd => simp [beq_iff_eq]

/-- Witness for `c1_amended_year_ignored` at the counterexample input. -/
theorem c1_amended_year_ignored_witness :
    check_date_generic ⟨2024, 6, 15⟩ (some ("15/6/2023".toList)) = true ↔
      mkDate (assumedYear ⟨2024, 6, 15⟩ 6) 6 15 = none ∨
      mkDate (assumedYear ⟨2024, 6, 15⟩ 6) 6 15 = some ⟨2024, 6, 15⟩ :=
  c1_amended_year_ignored.2 ⟨2024, 6, 15⟩ ("15/6/2023".toList) 15 6 (by decide)

/-- Claim C4: for the yearless `D/M` shape the current year is assumed except
that a December date seen in January is assigned the previous year; with
current date 2024-01-02, `is_today("31/12")` parses to 2023-12-31 and
returns false. -/
theorem c4_yearless_rollover :
    (∀ (now : Date) (t : Str) (d m : Nat) (pd : Date),
        searchShort (pystrip t) = some (d, m) →
        mkDate (assumedYear now m) m d = some pd →
        (check_date_generic now (some t) = true ↔ pd = now)) ∧
    (searchShort (pystrip ("31/12".toList)) = some (31, 12) ∧
     assumedYear ⟨2024, 1, 2⟩ 12 = 2023 ∧
     mkDate 2023 12 31 = some ⟨2023, 12, 31⟩ ∧
     check_date_generic ⟨2024, 1, 2⟩ (some ("31/12".toList)) = false) := by
  refine ⟨fun now t d m pd h hmk => ?_, by decide, by decide, by decide, by decide⟩
  rw [check_of_searchShort h, hmk]
  simp [beq_iff_eq]

/-- Witness for `c4_yearless_rollover` at the spec's example. -/
theorem c4_yearless_rollover_witness :
    check_date_generic ⟨2024, 1, 2⟩ (some ("31/12".toList)) = true ↔
      (⟨2023, 12, 31⟩ : Date) = ⟨2024, 1, 2⟩ :=
  c4_yearless_rollover.1 ⟨2024, 1, 2⟩ ("31/12".toList) 31 12 ⟨2023, 12, 31⟩
    (by decide) (by decide)

/-- Claim C5: `_check_date_generic` passes on absent input, empty input, and
any input in which neither date pattern matches; the embedding is a total
boolean function, so no exception reaches the caller (the one fallible
operation, date construction, is modeled by `mkDate` and its failure also
yields true, see `c10_invalid_date_passes`). -/
theorem c5_permissive_pass :
    (∀ now : Date, check_date_generic now none = true) ∧
    (∀ now : Date, check_date_generic now (some []) = true) ∧
    (∀ (now : Date) (t : Str),
        searchShort (pystrip t) = none → searchLong (pystrip t) = none →
        check_date_generic now (some t) = true) ∧
    (∀ now : Date, check_date_generic now (some ("abc".toList)) = true) :=
  ⟨fun _ => rfl, fun _ => rfl,
   fun _ _ h1 h2 => check_true_of_no_match h1 h2,
   fun _ => check_true_of_no_match (by decide) (by decide)⟩

/-- Witness for `c5_permissive_pass` on a concrete patternless input. -/
theorem c5_permissive_pass_witness :
    check_date_generic ⟨2024, 6, 15⟩ (some ("no date here".toList)) = true :=
  c5_permissive_pass.2.2.1 ⟨2024, 6, 15⟩ ("no date here".toList) (by decide) (by decide)

/-- Claim C10: when the first `D/M` match denotes an impossible calendar date,
the `datetime` constructor failure is caught and converted to a pass: the
result is true; in particular for `"31/2"` and `"0/13"`. -/
theorem c10_invalid_date_passes :
    (∀ (now : Date) (t : Str) (d m : Nat),
        searchShort (pystrip t) = some (d, m) →
        mkDate (assumedYear now m) m d = none →
        check_date_generic now (some t) = true) ∧
    check_date_generic ⟨2024, 6, 15⟩ (some ("31/2".toList)) = true ∧
    check_date_generic ⟨2024, 6, 15⟩ (some ("0/13".toList)) = true := by
  refine ⟨fun now t d m h hmk => ?_, by decide, by decide⟩
  rw [check_of_searchShort h, hmk]

/-- Witness for `c10_invalid_date_passes` at the impossible date `31/2`. -/
theorem c10_invalid_date_passes_witness :
    check_date_generic ⟨2024, 7, 1⟩ (some ("31/2".toList)) = true :=
  c10_invalid_date_passes.1 ⟨2024, 7, 1⟩ ("31/2".toList) 31 2 (by decide) (by decide)

/-! ## Lemmas: `str.replace` and the Frontpages suffix rewrite -/

theorem pyReplaceFuel_nil (pat rep : Str) (fuel : Nat) :
    pyReplaceFuel pat rep fuel [] = [] := by
  cases fuel <;> rfl

/-- When the pattern occurs in `pre ++ pat` only as the final suffix (no
occurrence starts inside `pre`), `str.replace` rewrites exactly that suffix
and leaves `pre` unchanged. -/
theorem pyReplaceFuel_unique_suffix (pat rep : Str) (hpat : pat ≠ []) :
    ∀ (pre : Str) (fuel : Nat), (pre ++ pat).length ≤ fuel →
    (∀ i, i < pre.length → pat.isPrefixOf ((pre ++ pat).drop i) = false) →
    pyReplaceFuel pat rep fuel (pre ++ pat) = pre ++ rep := by
  intro pre
  induction pre with
  | nil =>
    intro fuel hfuel hocc
    simp only [List.nil_append] at hfuel ⊢
    cases fuel with
    | zero =>
      exact absurd (List.eq_nil_of_length_eq_zero (Nat.le_zero.mp hfuel)) hpat
    | succ f =>
      obtain ⟨c, rest, rfl⟩ : ∃ c rest, pat = c :: rest := by
        cases pat with
        | nil => exact absurd rfl hpat
        | cons c rest => exact ⟨c, rest, rfl⟩
      show (if !(c :: rest).isEmpty && (c :: rest).isPrefixOf (c :: rest) then
          rep ++ pyReplaceFuel (c :: rest) rep f ((c :: rest).drop (c :: rest).length)
        else c :: pyReplaceFuel (c :: rest) rep f rest) = rep
      rw [if_pos (by simp [List.isPrefixOf_iff_prefix]),
        List.drop_length, pyReplaceFuel_nil, List.append_nil]
  | cons c pre' ih =>
    intro fuel hfuel hocc
    cases fuel with
    | zero =>
      exfalso
      rw [Nat.le_zero] at hfuel
      simp at hfuel
    | succ f =>
      have h0 : pat.isPrefixOf (c :: (pre' ++ pat)) = false := by
        have h := hocc 0 (by simp)
        simpa using h
      show (if !pat.isEmpty && pat.isPrefixOf (c :: (pre' ++ pat)) then
          rep ++ pyReplaceFuel pat rep f ((c :: (pre' ++ pat)).drop pat.length)
        else c :: pyReplaceFuel pat rep f (pre' ++ pat)) = c :: (pre' ++ rep)
      rw [if_neg (by simp [h0])]
      have hlen : (pre' ++ pat).length ≤ f := by
        simpa using hfuel
      have hocc' : ∀ i, i < pre'.length →
          pat.isPrefixOf ((pre' ++ pat).drop i) = false := by
        intro i hi
        have h := hocc (i + 1) (by simpa using Nat.succ_lt_succ hi)
        rwa [List.cons_append, List.drop_succ_cons] at h
      rw [ih f hlen hocc']

/-- Claim C3 counterexample: a preview reference in which `'300.jpg'` occurs
twice.  The code rewrites every occurrence (`str.replace` replaces all), not
just the suffix: the rest of the path is not left unchanged. -/
theorem c3_counterexample :
    frontpagesImagePath (some ("/img/300.jpg300.jpg".toList)) =
      some ("/img/I.jpgI.jpg".toList) ∧
    "/img/I.jpgI.jpg".toList ≠ "/img/300.jpgI.jpg".toList :=
  ⟨by decide, by decide⟩

/-- Claim C3 (amended): the high-resolution path is formed iff the preview
reference is truthy and ends with `'300.jpg'`; it is formed by replacing every
occurrence of `'300.jpg'` with `'I.jpg'`, and when `'300.jpg'` occurs only as
the suffix, exactly the suffix is rewritten with the rest of the path
unchanged.  A reference not ending in the suffix yields `none` and the site
is skipped for this target. -/
theorem c3_amended_suffix_rewrite :
    (∀ osrc : Option Str,
        (frontpagesImagePath osrc).isSome = true ↔
        ∃ s : Str, osrc = some s ∧ s ≠ [] ∧ lowResToken.isSuffixOf s = true) ∧
    (∀ s : Str, s ≠ [] → lowResToken.isSuffixOf s = true →
        frontpagesImagePath (some s) =
          some (pyReplace lowResToken highResToken s)) ∧
    (∀ pre : Str,
        (∀ i, i < pre.length →
          lowResToken.isPrefixOf ((pre ++ lowResToken).drop i) = false) →
        pyReplace lowResToken highResToken (pre ++ lowResToken) =
          pre ++ highResToken) := by
  refine ⟨fun osrc => ?_, fun s h1 h2 => ?_, fun pre hocc => ?_⟩
  · cases osrc with
    | none => simp [frontpagesImagePath]
    | some s =>
      by_cases h1 : s.isEmpty
      · have hs : s = [] := by
          cases s
          · rfl
          · simp [List.isEmpty] at h1
        subst hs
        simp [frontpagesImagePath]
      · by_cases h2 : lowResToken.isSuffixOf s
        · have hne : s ≠ [] := by
            intro hs
            subst hs
            simp at h1
          have h2' := List.isSuffixOf_iff_suffix.mp h2
          simp [frontpagesImagePath, h1, h2', hne]
        · have h2' : ¬ lowResToken <:+ s := fun hh => h2 (List.isSuffixOf_iff_suffix.mpr hh)
          simp [frontpagesImagePath, h1, h2']
  · have h1' : s.isEmpty = false := by
      cases s
      · exact absurd rfl h1
      · rfl
    simp [frontpagesImagePath, h1', h2]
  · show pyReplaceFuel lowResToken highResToken (pre ++ lowResToken).length
        (pre ++ lowResToken) = pre ++ highResToken
    exact pyReplaceFuel_unique_suffix lowResToken highResToken (by decide)
      pre _ (Nat.le_refl _) hocc

/-- Witness for `c3_amended_suffix_rewrite`: a path in which the token occurs
only as the suffix is rewritten in the suffix only. -/
theorem c3_amended_suffix_rewrite_witness :
    pyReplace lowResToken highResToken ("/img/x".toList ++ lowResToken) =
      "/img/x".toList ++ highResToken :=
  c3_amended_suffix_rewrite.2.2 ("/img/x".toList) (by decide)

/-! ## Lemmas: Zougla detail-page resolution -/

/-- Strategy B only ever accepts a truthy `src` (`if not src: continue`). -/
theorem zouglaScanImgs_truthy {t : Str} :
    ∀ {imgs : List (Option Str)} {s : Str},
      zouglaScanImgs t imgs = some s → s.isEmpty = false := by
  intro imgs
  induction imgs with
  | nil => intro s h; exact Option.noConfusion h
  | cons o rest ih =>
    intro s h
    cases o with
    | none =>
      have h' : zouglaScanImgs t rest = some s := h
      exact ih h'
    | some src =>
      by_cases he : src.isEmpty = true
      · rw [zouglaScanImgs, List.findSome?_cons_of_isNone] at h
        · exact ih h
        · simp [he]
      · by_cases ha : (normalize_text src == t &&
            !(lowResMarkers.any fun m => containsSub m (src.map pyLower))) = true
        · rw [zouglaScanImgs, List.findSome?_cons_of_isSome] at h
          · simp only [he, if_false, ha, if_true] at h
            have h'' : src = s := by
              simpa using h
            subst h''
            exact eq_false_of_ne_true he
          · simp [he, ha]
        · rw [zouglaScanImgs, List.findSome?_cons_of_isNone] at h
          · exact ih h
          · simp [he, ha]

/-- Claim C2 counterexample: a detail page with an empty cover container but
an image whose normalized `src` equals the target and carries no low-res
marker.  The claim says the second strategy accepts it, so resolution should
succeed; the current adapter resolves nothing, because the full-page-scan
strategy exists only in the old version. -/
theorem c2_counterexample :
    zouglaResolveCurrent ⟨[], [some ("alpha".toList)]⟩ = none ∧
    zouglaScanImgs ("alpha".toList) [some ("alpha".toList)] =
      some ("alpha".toList) ∧
    find_zougla_high_res_url ⟨[], [some ("alpha".toList)]⟩ ("alpha".toList) =
      some ("alpha".toList) :=
  ⟨by decide, by decide, by decide⟩

/-- Claim C2 (amended): the current `_search_zougla` resolves the
high-resolution reference by the cover-container strategy alone — its result
does not depend on the other images of the detail page, it succeeds exactly
when the cover `src` is truthy, and then returns that `src`.  The two
ordered strategies described by the claim are implemented by the old
version's `_find_zougla_high_res_url`: it returns the cover `src` when that
is truthy, and otherwise the scan result; its resolution is falsy exactly
when the cover strategy is falsy and the scan yields nothing. -/
theorem c2_amended_resolution :
    (∀ pg1 pg2 : ZouglaDetailPage, pg1.coverImgs = pg2.coverImgs →
        zouglaResolveCurrent pg1 = zouglaResolveCurrent pg2) ∧
    (∀ pg : ZouglaDetailPage,
        (zouglaResolveCurrent pg = none ↔ optTruthy (zouglaCoverSrc pg) = false) ∧
        (optTruthy (zouglaCoverSrc pg) = true →
          zouglaResolveCurrent pg = zouglaCoverSrc pg)) ∧
    (∀ (pg : ZouglaDetailPage) (t : Str),
        (optTruthy (zouglaCoverSrc pg) = true →
          find_zougla_high_res_url pg t = zouglaCoverSrc pg) ∧
        (optTruthy (zouglaCoverSrc pg) = false →
          zouglaScanImgs t pg.allImgs = none →
          find_zougla_high_res_url pg t = zouglaCoverSrc pg) ∧
        (optTruthy (find_zougla_high_res_url pg t) = false ↔
          optTruthy (zouglaCoverSrc pg) = false ∧
          zouglaScanImgs t pg.allImgs = none)) := by
  refine ⟨fun pg1 pg2 h => ?_, fun pg => ⟨?_, ?_⟩, fun pg t => ⟨?_, ?_, ?_⟩⟩
  · simp only [zouglaResolveCurrent, zouglaCoverSrc, h]
  · unfold zouglaResolveCurrent
    by_cases ha : optTruthy (zouglaCoverSrc pg)
    · rw [if_pos ha]
      simp only [ha, Bool.true_eq_false, iff_false]
      intro hnone
      rw [hnone] at ha
      exact Bool.noConfusion ha
    · rw [if_neg ha]
      simp [eq_false_of_ne_true ha]
  · intro ha
    unfold zouglaResolveCurrent
    rw [if_pos ha]
  · intro ha
    unfold find_zougla_high_res_url
    rw [if_pos ha]
  · intro ha hscan
    unfold find_zougla_high_res_url
    rw [if_neg (by rw [ha]; exact Bool.false_ne_true), hscan]
  · unfold find_zougla_high_res_url
    by_cases ha : optTruthy (zouglaCoverSrc pg)
    · rw [if_pos ha]
      simp [ha]
    · rw [if_neg ha]
      have ha' := eq_false_of_ne_true ha
      cases hscan : zouglaScanImgs t pg.allImgs with
      | none => simp [ha']
      | some s =>
        have hs := zouglaScanImgs_truthy hscan
        simp [optTruthy, hs, ha']

/-- Witness for `c2_amended_resolution`: with a truthy cover image the old
helper returns the cover strategy's result. -/
theorem c2_amended_resolution_witness :
    find_zougla_high_res_url ⟨[some ("cover.jpg".toList)], []⟩ ("alpha".toList) =
      zouglaCoverSrc ⟨[some ("cover.jpg".toList)], []⟩ :=
  (c2_amended_resolution.2.2 ⟨[some ("cover.jpg".toList)], []⟩ ("alpha".toList)).1
    (by decide)

/-! ## Lemmas: the orchestrator loop -/

theorem runNewspapers_trace_cons (fp zg : Str → Option Str) (n : Str) (rest : List Str) :
    (runNewspapers fp zg (n :: rest)).2 =
      (n, !optTruthy (fp (normalize_text n))) :: (runNewspapers fp zg rest).2 := rfl

theorem runNewspapers_images_cons (fp zg : Str → Option Str) (n : Str) (rest : List Str) :
    (runNewspapers fp zg (n :: rest)).1 =
      (match (if optTruthy (fp (normalize_text n)) then fp (normalize_text n)
              else zg (normalize_text n)) with
       | some p => if p.isEmpty then (runNewspapers fp zg rest).1
                   else p :: (runNewspapers fp zg rest).1
       | none => (runNewspapers fp zg rest).1) := rfl

/-- The per-target outcome, in the shape used to relate the loop to
`List.filterMap`. -/
theorem acceptedPath_eq_match (fp zg : Str → Option Str) (n : Str) :
    acceptedPath fp zg n =
      (match (if optTruthy (fp (normalize_text n)) then fp (normalize_text n)
              else zg (normalize_text n)) with
       | some p => if p.isEmpty then none else some p
       | none => none) := by
  simp only [acceptedPath]
  cases hif : (if optTruthy (fp (normalize_text n)) then fp (normalize_text n)
      else zg (normalize_text n)) with
  | none => simp [optTruthy]
  | some p => by_cases hp : p.isEmpty <;> simp [optTruthy, hp]

/-- Claim C7: for every target processed by the orchestrator loop, if the
Frontpages adapter returns an accepted (truthy) result on the target's
normalized name, the Zougla adapter is never invoked for that target. -/
theorem c7_short_circuit :
    ∀ (fp zg : Str → Option Str) (names : List Str) (n : Str) (b : Bool),
      (n, b) ∈ (runNewspapers fp zg names).2 →
      optTruthy (fp (normalize_text n)) = true → b = false := by
  intro fp zg names
  induction names with
  | nil =>
    intro n b h _
    exact absurd h (List.not_mem_nil _)
  | cons m rest ih =>
    intro n b h htr
    rw [runNewspapers_trace_cons] at h
    rcases List.mem_cons.mp h with heq | hmem
    · have hn : n = m := congrArg Prod.fst heq
      have hb : b = !optTruthy (fp (normalize_text m)) := congrArg Prod.snd heq
      rw [hb, ← hn, htr]
      rfl
    · exact ih n b hmem htr

/-- Witness for `c7_short_circuit` on a concrete run in which Frontpages
accepts the single target. -/
theorem c7_short_circuit_witness : false = false :=
  c7_short_circuit (fun _ => some ("x.jpg".toList)) (fun _ => none)
    ["alpha".toList] ("alpha".toList) false (by decide) (by decide)

/-- Claim C8: the run's `downloaded_images` equals the `filterMap` of the
per-target accepted path over the target list — hence at most one path per
target, in target-iteration order — and its length never exceeds the number
of targets. -/
theorem c8_order_one_per_target :
    ∀ (fp zg : Str → Option Str) (names : List Str),
      (runNewspapers fp zg names).1 = names.filterMap (acceptedPath fp zg) ∧
      (runNewspapers fp zg names).1.length ≤ names.length := by
  intro fp zg names
  have h : (runNewspapers fp zg names).1 = names.filterMap (acceptedPath fp zg) := by
    induction names with
    | nil => rfl
    | cons n rest ih =>
      rw [runNewspapers_images_cons, List.filterMap_cons, acceptedPath_eq_match, ih]
      cases hif : (if optTruthy (fp (normalize_text n)) then fp (normalize_text n)
          else zg (normalize_text n)) with
      | none => rfl
      | some p => by_cases hp : p.isEmpty <;> simp [hp]
  refine ⟨h, ?_⟩
  rw [h]
  exact List.length_filterMap_le _ _

/-- Witness for `c8_order_one_per_target` on a concrete two-target run. -/
theorem c8_order_one_per_target_witness :
    (runNewspapers (fun _ => some ("x.jpg".toList)) (fun _ => none)
        ["alpha".toList, "beta".toList]).1 =
      ["alpha".toList, "beta".toList].filterMap
        (acceptedPath (fun _ => some ("x.jpg".toList)) (fun _ => none)) :=
  (c8_order_one_per_target (fun _ => some ("x.jpg".toList)) (fun _ => none)
    ["alpha".toList, "beta".toList]).1

/-- Claim C9: every character of the sanitized filename written by
`_download_file` is in the allowed set (word characters, hyphen, underscore,
period); in particular spaces, slashes, double quotes and single quotes never
survive sanitization, for any desired filename. -/
theorem c9_filename_sanitization :
    (∀ (f : Str) (c : Char), c ∈ sanitizeFilename f → allowedFilenameChar c = true) ∧
    (∀ f : Str, ' ' ∉ sanitizeFilename f ∧ '/' ∉ sanitizeFilename f ∧
      '\x22' ∉ sanitizeFilename f ∧ '\x27' ∉ sanitizeFilename f) := by
  constructor
  · intro f c hc
    exact (List.mem_filter.mp hc).2
  · intro f
    refine ⟨fun h => ?_, fun h => ?_, fun h => ?_, fun h => ?_⟩ <;>
      exact absurd (List.mem_filter.mp h).2 (by decide)

/-- Witness for `c9_filename_sanitization` at a concrete filename. -/
theorem c9_filename_sanitization_witness :
    allowedFilenameChar 'a' = true :=
  c9_filename_sanitization.1 ("a b.jpg".toList) 'a' (by decide)
